import Mathlib

/-!
Verification of the FAQ schema extraction worker (`src/index.js`).

Strings are modelled as `List Char`.  JavaScript's `.length`, `substring`,
`lastIndexOf` count UTF-16 code units; every character handled in this
development lies in the basic multilingual plane, where code units coincide
with code points, so `List Char` positions are faithful to the source.

Scanning functions that consume a non-constant number of characters per step
take an explicit fuel argument (structural recursion on the fuel keeps them
kernel-computable); each wrapper passes `length + 1` fuel, which is ample
because every step consumes at least one character.
-/

namespace FaqWorker

/-- The JavaScript regex class `\s` (ECMAScript WhiteSpace and LineTerminator). -/
def jsWhite (c : Char) : Bool :=
  c = ' ' || c = '\t' || c = '\n' || c = '\r' || c = '\x0b' || c = '\x0c' ||
  c = ' ' || c = ' ' || (0x2000 ≤ c.toNat && c.toNat ≤ 0x200A) ||
  c = ' ' || c = ' ' || c = ' ' || c = ' ' || c = '　' ||
  c = '﻿'

/-- JavaScript `String.prototype.trim`: strip `\s` characters from both ends. -/
def jsTrim (s : List Char) : List Char :=
  ((s.dropWhile jsWhite).reverse.dropWhile jsWhite).reverse

/-- Helper for `collapseWs`: the flag records whether the previous character
was whitespace (in which case further whitespace is absorbed into the same
single output space). -/
def collapseWsAux : Bool → List Char → List Char
  | _, [] => []
  | inWs, c :: rest =>
    if jsWhite c then
      if inWs then collapseWsAux true rest
      else ' ' :: collapseWsAux true rest
    else c :: collapseWsAux false rest

/-- `replace(/\s+/g, ' ')`: every maximal whitespace run becomes one space. -/
def collapseWs (s : List Char) : List Char := collapseWsAux false s

/-- The character class `[#a-zA-Z0-9]` of the entity regex in
`decodeHtmlEntities` (src/index.js line 1012). -/
def entClass (c : Char) : Bool := c = '#' || c.isAlpha || c.isDigit

/-- The fixed entity table of `decodeHtmlEntities` (src/index.js lines 997-1010).
`&nbsp;` maps to a plain ASCII space in the source. -/
def entityTable : List (List Char × List Char) :=
  [("&amp;".data, "&".data), ("&lt;".data, "<".data), ("&gt;".data, ">".data),
   ("&quot;".data, "\"".data), ("&#39;".data, "\x27".data), ("&nbsp;".data, " ".data),
   ("&mdash;".data, "—".data), ("&ndash;".data, "–".data),
   ("&hellip;".data, "…".data), ("&copy;".data, "©".data),
   ("&reg;".data, "®".data), ("&trade;".data, "™".data)]

/-- First-match lookup in the entity table. -/
def lookupEnt : List (List Char × List Char) → List Char → Option (List Char)
  | [], _ => none
  | (k, v) :: rest, tok => if k = tok then some v else lookupEnt rest tok

/-- One left-to-right pass of `replace(/&[#a-zA-Z0-9]+;/g, m => entities[m] || m)`.
At `&` the greedy class run must be non-empty and be followed by `;` for a
match; an unmatched token is emitted unchanged and scanning resumes one
character later, exactly as the regex engine advances. -/
def decodeEntitiesAux : Nat → List Char → List Char
  | 0, s => s
  | _ + 1, [] => []
  | fuel + 1, '&' :: rest =>
    let run := rest.takeWhile entClass
    if run.isEmpty then '&' :: decodeEntitiesAux fuel rest
    else
      match rest.drop run.length with
      | ';' :: tail =>
        let tok := '&' :: (run ++ [';'])
        (match lookupEnt entityTable tok with
         | some rep => rep
         | none => tok) ++ decodeEntitiesAux fuel tail
      | _ => '&' :: decodeEntitiesAux fuel rest
  | fuel + 1, c :: rest => c :: decodeEntitiesAux fuel rest

/-- `decodeHtmlEntities` (src/index.js lines 996-1013). -/
def decodeHtmlEntities (s : List Char) : List Char := decodeEntitiesAux (s.length + 1) s

/-- `replace(/<[^>]+>/g, '')`: a match runs from a `<` to the first following
`>` with at least one character in between. -/
def stripTagsAux : Nat → List Char → List Char
  | 0, s => s
  | _ + 1, [] => []
  | fuel + 1, '<' :: rest =>
    let inside := rest.takeWhile (· ≠ '>')
    match rest.drop inside.length with
    | '>' :: tail =>
      if inside.isEmpty then '<' :: stripTagsAux fuel rest
      else stripTagsAux fuel tail
    | _ => '<' :: rest
  | fuel + 1, c :: rest => c :: stripTagsAux fuel rest

/-- Tag stripping in `processQuestion` (src/index.js line 824). -/
def stripHtmlTags (s : List Char) : List Char := stripTagsAux (s.length + 1) s

/-- The test `/<[^>]+>/.test(raw)` (src/index.js line 818). -/
def hasTagAux : Nat → List Char → Bool
  | 0, _ => false
  | _ + 1, [] => false
  | fuel + 1, '<' :: rest =>
    let inside := rest.takeWhile (· ≠ '>')
    match rest.drop inside.length with
    | '>' :: _ => if inside.isEmpty then hasTagAux fuel rest else true
    | _ => false
  | fuel + 1, _ :: rest => hasTagAux fuel rest

/-- Whether the question text contains an HTML tag (for the stripped counter). -/
def hasHtmlTag (s : List Char) : Bool := hasTagAux (s.length + 1) s

/-- The `processing` counter bag created per request (src/index.js lines 253-262). -/
structure Stats where
  questionsWithHtmlStripped : Nat := 0
  answersWithHtmlSanitized : Nat := 0
  truncatedAnswers : Nat := 0
  imagesProcessed : Nat := 0
  brokenImages : Nat := 0
  unverifiedImages : Nat := 0
  relativeUrlsFixed : Nat := 0
  dataUrisRejected : Nat := 0
deriving DecidableEq

/-- A fresh counter bag, all counters zero. -/
def stats0 : Stats := {}

/-- `lastIndexOf(' ')` as an optional index (`none` models the JS result -1). -/
def lastSpaceIdx : List Char → Option Nat
  | [] => none
  | c :: rest =>
    match lastSpaceIdx rest with
    | some i => some (i + 1)
    | none => if c = ' ' then some 0 else none

/-- The decode/strip/collapse/trim stage of `processQuestion`
(src/index.js lines 813-828). -/
def normalizeQuestion (raw : List Char) : List Char :=
  jsTrim (collapseWs (stripHtmlTags (decodeHtmlEntities raw)))

/-- The length-limiting stage of `processQuestion` (src/index.js lines 831-839):
cut to 300, and when the last space of the prefix sits beyond position 250,
back up to it and append `...`. -/
def truncateQuestion (s : List Char) : List Char :=
  if 300 < s.length then
    let t := s.take 300
    match lastSpaceIdx t with
    | some i => if 250 < i then t.take i ++ "...".data else t
    | none => t
  else s

/-- `processQuestion` (src/index.js lines 805-843).  Empty input is returned
unchanged (the caller treats it as "no question"). -/
def processQuestion (raw : List Char) (st : Stats) : List Char × Stats :=
  if raw.isEmpty then ([], st)
  else
    let st' :=
      if hasHtmlTag (decodeHtmlEntities raw) then
        { st with questionsWithHtmlStripped := st.questionsWithHtmlStripped + 1 }
      else st
    (truncateQuestion (normalizeQuestion raw), st')

/-- Substring test, JS `String.prototype.includes`. -/
def subOf : List Char → List Char → Bool
  | pat, [] => pat.isEmpty
  | pat, c :: rest => pat.isPrefixOf (c :: rest) || subOf pat rest

/-- A character kept by `replace(/[^\w\s]/g, '')`: word (`[A-Za-z0-9_]`) or
whitespace. -/
def wordOrSpace (c : Char) : Bool := c.isAlpha || c.isDigit || c = '_' || jsWhite c

/-- The dedup normalisation key of `dedupeEnhanced` (src/index.js lines 1039-1042):
lowercase, drop non-word/non-space characters, collapse whitespace, trim.
`Char.toLower` agrees with JS `toLowerCase` on ASCII, which is all the
witnesses here use. -/
def normKey (q : List Char) : List Char :=
  jsTrim (collapseWs ((q.map Char.toLower).filter wordOrSpace))

/-- One extracted FAQ record: `id = none` models the JS `null`. -/
structure FAQ where
  question : List Char
  answer : List Char
  id : Option (List Char)
deriving DecidableEq

/-- JS truthiness of a record id (`null` and the empty string are falsy). -/
def idTruthy : Option (List Char) → Bool
  | none => false
  | some s => !s.isEmpty

/-- The rejection tests of `dedupeEnhanced` (src/index.js lines 1028-1036):
missing question/answer, or a field containing the template marker. -/
def rejectedRecord (f : FAQ) : Bool :=
  f.question.isEmpty || f.answer.isEmpty ||
  subOf "$\x7b".data f.question || subOf "$\x7b".data f.answer

/-- First-match lookup in the `seen` map (a JS `Map` keyed by the norm key). -/
def seenLookup : List (List Char × FAQ) → List Char → Option FAQ
  | [], _ => none
  | (k, f) :: rest, key => if k = key then some f else seenLookup rest key

/-- `Map.set`: update in place or append. -/
def seenSet : List (List Char × FAQ) → List Char → FAQ → List (List Char × FAQ)
  | [], key, f => [(key, f)]
  | (k, g) :: rest, key, f =>
    if k = key then (k, f) :: rest else (k, g) :: seenSet rest key f

/-- The body of the `arr.filter` in `dedupeEnhanced` (src/index.js lines
1022-1060), threading the element index and the `seen` map.  Note that on a
key collision where the existing record lacks an id and the new one has one,
the source updates only the `seen` map (`seen.set(key, faq)`) and still
returns `false` from the filter callback, so the replacement never reaches
the filtered output list. -/
def dedupeGo : List FAQ → Nat → List (List Char × FAQ) → List FAQ
  | [], _, _ => []
  | f :: rest, idx, seen =>
    if 50 ≤ idx then dedupeGo rest (idx + 1) seen
    else if rejectedRecord f then dedupeGo rest (idx + 1) seen
    else
      let key := normKey f.question
      match seenLookup seen key with
      | some existing =>
        if !idTruthy existing.id && idTruthy f.id then
          dedupeGo rest (idx + 1) (seenSet seen key f)
        else dedupeGo rest (idx + 1) seen
      | none => f :: dedupeGo rest (idx + 1) (seenSet seen key f)

/-- `dedupeEnhanced` (src/index.js lines 1016-1064). -/
def dedupeEnhanced (arr : List FAQ) : List FAQ := dedupeGo arr 0 []

/-! ### Claim C1 — identifier presence on dedup collision -/

/-- First-seen record without an identifier. -/
def c1NoId : FAQ := ⟨"What is X?".data, "A1".data, none⟩

/-- Later duplicate (same normalisation key) carrying an identifier. -/
def c1WithId : FAQ := ⟨"what is x".data, "A2".data, some "faq-1".data⟩

/-- C1: on a dedup collision where the first-seen record has no identifier and
the later duplicate has one, the output is supposed to contain the
identifier-bearing record.  The source's filter callback updates only the
`seen` map and returns `false`, so the filtered output keeps the first-seen,
identifier-less record: on the two-record failing input the output is exactly
`[c1NoId]`. -/
theorem dedupe_id_replacement_lost :
    normKey c1NoId.question = normKey c1WithId.question ∧
    c1NoId.id = none ∧ idTruthy c1WithId.id = true ∧
    rejectedRecord c1NoId = false ∧ rejectedRecord c1WithId = false ∧
    dedupeEnhanced [c1NoId, c1WithId] = [c1NoId] := by
  decide

/-! ### Claim C5 — question truncation -/

/-- A last-space index points inside the list. -/
theorem lastSpaceIdx_lt_length :
    ∀ {s : List Char} {i : Nat}, lastSpaceIdx s = some i → i < s.length := by
  intro s
  induction s with
  | nil => intro i h; simp [lastSpaceIdx] at h
  | cons c rest ih =>
    intro i h
    simp only [lastSpaceIdx] at h
    cases hr : lastSpaceIdx rest with
    | some j =>
      rw [hr] at h
      cases h
      have := ih hr
      simp only [List.length_cons]
      omega
    | none =>
      rw [hr] at h
      by_cases hc : c = ' '
      · rw [if_pos hc] at h
        cases h
        simp
      · rw [if_neg hc] at h
        cases h

/-- Branch equation of `truncateQuestion` when a last space exists. -/
theorem truncateQuestion_some (s : List Char) (i : Nat) (h : 300 < s.length)
    (hsp : lastSpaceIdx (s.take 300) = some i) :
    truncateQuestion s =
      if 250 < i then (s.take 300).take i ++ "...".data else s.take 300 := by
  rw [truncateQuestion, if_pos h]
  simp only [hsp]

/-- Branch equation of `truncateQuestion` when the 300-prefix has no space. -/
theorem truncateQuestion_none (s : List Char) (h : 300 < s.length)
    (hsp : lastSpaceIdx (s.take 300) = none) :
    truncateQuestion s = s.take 300 := by
  rw [truncateQuestion, if_pos h]
  simp only [hsp]

/-- C5: when the decoded, tag-stripped, whitespace-collapsed question text
exceeds 300 characters, `processQuestion` cuts it at 300; when the last space
of that prefix sits beyond position 250 it backtracks to the space and appends
the `...` marker, otherwise it hard-cuts at 300 (and then no marker is
appended, per the spec's "≤300 chars (303 including ellipsis marker in the
backtrack case)"); the output never exceeds 303 characters. -/
theorem processQuestion_truncation (raw : List Char) (st : Stats)
    (h : 300 < (normalizeQuestion raw).length) :
    (processQuestion raw st).1.length ≤ 303 ∧
    (∀ i, lastSpaceIdx ((normalizeQuestion raw).take 300) = some i → 250 < i →
      (processQuestion raw st).1 = ((normalizeQuestion raw).take 300).take i ++ "...".data) ∧
    (∀ i, lastSpaceIdx ((normalizeQuestion raw).take 300) = some i → i ≤ 250 →
      (processQuestion raw st).1 = (normalizeQuestion raw).take 300) ∧
    (lastSpaceIdx ((normalizeQuestion raw).take 300) = none →
      (processQuestion raw st).1 = (normalizeQuestion raw).take 300) := by
  have hraw : raw.isEmpty = false := by
    rcases raw with _ | ⟨c, rest⟩
    · simp [normalizeQuestion, decodeHtmlEntities, decodeEntitiesAux, stripHtmlTags,
        stripTagsAux, collapseWs, collapseWsAux, jsTrim] at h
    · rfl
  have hq : (processQuestion raw st).1 = truncateQuestion (normalizeQuestion raw) := by
    simp [processQuestion, hraw]
  set s := normalizeQuestion raw with hs
  have htake : (s.take 300).length = 300 := by
    rw [List.length_take]
    omega
  refine ⟨?_, ?_, ?_, ?_⟩
  · rw [hq]
    cases hsp : lastSpaceIdx (s.take 300) with
    | some i =>
      have hi : i < 300 := by
        have := lastSpaceIdx_lt_length hsp
        omega
      rw [truncateQuestion_some s i h hsp]
      by_cases h250 : 250 < i
      · rw [if_pos h250]
        have hb : ((s.take 300).take i).length ≤ i := by
          rw [List.length_take]
          exact Nat.min_le_left _ _
        have h3 : "...".data.length = 3 := by decide
        rw [List.length_append]
        omega
      · rw [if_neg h250]
        omega
    | none =>
      rw [truncateQuestion_none s h hsp]
      omega
  · intro i hsp h250
    rw [hq, truncateQuestion_some s i h hsp, if_pos h250]
  · intro i hsp h250
    rw [hq, truncateQuestion_some s i h hsp, if_neg (by omega)]
  · intro hsp
    rw [hq, truncateQuestion_none s h hsp]

set_option maxRecDepth 8000 in
/-- C5 witness: a 301-character question (no spaces) is hard-cut to 300 with
no marker; the bound 303 holds. -/
theorem processQuestion_truncation_witness :
    300 < (normalizeQuestion (List.replicate 301 'a')).length ∧
    (processQuestion (List.replicate 301 'a') stats0).1.length ≤ 303 :=
  ⟨by decide, (processQuestion_truncation (List.replicate 301 'a') stats0 (by decide)).1⟩

/-! ### Claim C7 — the 50-record cap -/

/-- Setting a fresh key leaves lookups of other keys unchanged. -/
theorem seenLookup_seenSet_ne (seen : List (List Char × FAQ)) (key k : List Char) (f : FAQ)
    (hne : k ≠ key) : seenLookup (seenSet seen key f) k = seenLookup seen k := by
  induction seen with
  | nil =>
    simp only [seenSet, seenLookup]
    rw [if_neg (fun h => hne h.symm)]
  | cons p rest ih =>
    obtain ⟨pk, pf⟩ := p
    by_cases hpk : pk = key
    · subst hpk
      simp only [seenSet, if_pos rfl, seenLookup]
      rw [if_neg (fun h => hne h.symm), if_neg (fun h => hne h.symm)]
    · simp only [seenSet, if_neg hpk, seenLookup]
      by_cases hk : pk = k
      · rw [if_pos hk, if_pos hk]
      · rw [if_neg hk, if_neg hk, ih]

/-- On a list of valid records with pairwise-distinct normalisation keys none
of which is already seen, the filter of `dedupeEnhanced` keeps exactly the
records up to the index cap, in order. -/
theorem dedupeGo_all_unique (arr : List FAQ) :
    ∀ (idx : Nat) (seen : List (List Char × FAQ)),
    (∀ f ∈ arr, rejectedRecord f = false) →
    (arr.map fun f => normKey f.question).Nodup →
    (∀ f ∈ arr, seenLookup seen (normKey f.question) = none) →
    dedupeGo arr idx seen = arr.take (50 - idx) := by
  induction arr with
  | nil => intros; simp [dedupeGo]
  | cons f rest ih =>
    intro idx seen hv hu hs
    have hvf := hv f (List.mem_cons_self f rest)
    have hvr : ∀ g ∈ rest, rejectedRecord g = false := fun g hg => hv g (List.mem_cons_of_mem f hg)
    have hcons : normKey f.question ∉ (rest.map fun g => normKey g.question) ∧
        (rest.map fun g => normKey g.question).Nodup := by
      rw [List.map_cons, List.nodup_cons] at hu
      exact hu
    have hur := hcons.2
    have hne : ∀ g ∈ rest, normKey g.question ≠ normKey f.question := by
      intro g hg hcontra
      exact hcons.1 (by
        rw [← hcontra]
        exact List.mem_map_of_mem (fun x => normKey x.question) hg)
    by_cases h50 : 50 ≤ idx
    · rw [dedupeGo, if_pos h50]
      rw [ih (idx + 1) seen hvr hur (fun g hg => hs g (List.mem_cons_of_mem f hg))]
      have h0 : 50 - idx = 0 := by omega
      have h1 : 50 - (idx + 1) = 0 := by omega
      simp [h0, h1]
    · have hseen := hs f (List.mem_cons_self f rest)
      rw [dedupeGo, if_neg h50]
      simp only [hvf, Bool.false_eq_true, if_false, hseen]
      have hs' : ∀ g ∈ rest,
          seenLookup (seenSet seen (normKey f.question) f) (normKey g.question) = none := by
        intro g hg
        rw [seenLookup_seenSet_ne seen _ _ f (hne g hg)]
        exact hs g (List.mem_cons_of_mem f hg)
      rw [ih (idx + 1) (seenSet seen (normKey f.question) f) hvr hur hs']
      have harith : 50 - idx = (50 - (idx + 1)) + 1 := by omega
      rw [harith, List.take_succ_cons]

/-- C7: a list of more than 50 valid records with pairwise-distinct
normalisation keys is cut to exactly its first 50 records, in input order;
records at positions 50 and beyond are rejected regardless of uniqueness. -/
theorem dedupe_caps_at_50 (arr : List FAQ)
    (hlen : 50 < arr.length)
    (hv : ∀ f ∈ arr, rejectedRecord f = false)
    (hu : (arr.map fun f => normKey f.question).Nodup) :
    dedupeEnhanced arr = arr.take 50 ∧ (dedupeEnhanced arr).length = 50 := by
  have hgo := dedupeGo_all_unique arr 0 [] hv hu (fun f _ => rfl)
  constructor
  · simpa [dedupeEnhanced] using hgo
  · rw [dedupeEnhanced]
    rw [show dedupeGo arr 0 [] = arr.take (50 - 0) from hgo]
    simp only [Nat.sub_zero, List.length_take]
    omega

/-- 60 valid records with pairwise-distinct questions. -/
def faq60 : List FAQ :=
  (List.range 60).map fun i => ⟨"q".data ++ (Nat.repr i).data, "a".data, none⟩

/-- C7 witness: feeding 60 valid unique records yields exactly the first 50. -/
theorem dedupe_caps_at_50_witness :
    50 < faq60.length ∧ dedupeEnhanced faq60 = faq60.take 50 :=
  ⟨by decide, (dedupe_caps_at_50 faq60 (by decide) (by decide) (by decide)).1⟩

/-! ### JSON-LD value model -/

/-- A parsed JSON-LD value as the traversal code sees it.  `undefV` models the
JavaScript `undefined` produced by reading an absent field. -/
inductive JVal where
  | undefV : JVal
  | jnull : JVal
  | jbool : Bool → JVal
  | jnum : Int → JVal
  | jstr : List Char → JVal
  | jarr : List JVal → JVal
  | jobj : List (List Char × JVal) → JVal

/-- First-match field lookup (parsed JSON objects are modelled with unique
keys, which `JSON.parse` guarantees for the values the worker sees after the
last-duplicate-wins parse). -/
def lookupField : List (List Char × JVal) → List Char → JVal
  | [], _ => .undefV
  | (k, v) :: rest, key => if k = key then v else lookupField rest key

/-- JS property read `obj[k]`: `undefined` on anything but an object. -/
def getField : JVal → List Char → JVal
  | .jobj fs, key => lookupField fs key
  | _, _ => .undefV

/-- JS truthiness. -/
def truthy : JVal → Bool
  | .undefV => false
  | .jnull => false
  | .jbool b => b
  | .jnum n => decide (n ≠ 0)
  | .jstr s => !s.isEmpty
  | .jarr _ => true
  | .jobj _ => true

/-- JS `a || b`. -/
def jsOr (a b : JVal) : JVal := if truthy a then a else b

/-- JS `v.length > 0`: arrays and strings compare their length; an object
exposes its own `length` field; any other `.length` is `undefined`, and
`undefined > 0` is false. -/
def jsLenPos : JVal → Bool
  | .jarr xs => decide (0 < xs.length)
  | .jstr s => decide (0 < s.length)
  | .jobj fs =>
    match lookupField fs "length".data with
    | .jnum n => decide (0 < n)
    | _ => false
  | _ => false

/-- JS `v[0]`: first array element, first character of a string (as a
one-character string), field `"0"` of an object, else `undefined`. -/
def jsIndex0 : JVal → JVal
  | .jarr (x :: _) => x
  | .jstr (c :: _) => .jstr [c]
  | .jobj fs => lookupField fs "0".data
  | _ => .undefV

/-- JS `v.includes(needle)` as used on `@type` values: substring test on a
string, element equality on an array of values. -/
def jsIncl (v : JVal) (needle : List Char) : Bool :=
  match v with
  | .jstr s => subOf needle s
  | .jarr xs => xs.any fun x =>
      match x with
      | .jstr s => s = needle
      | _ => false
  | _ => false

/-- The answer-extraction logic of `traverseEnhancedLd` (src/index.js lines
545-558): `acceptedAnswer` when truthy (the string itself, else its
`text`/`answerText`/`description`), else `suggestedAnswer[0]` guarded by
`suggested && suggested.length > 0` (the string itself, else its
`text`/`answerText`), else the empty string.  A truthy non-string result
would make the downstream JS throw inside the per-script try/catch; the
claims only exercise string values. -/
def extractRawAnswerV (q : JVal) : JVal :=
  let accepted := getField q "acceptedAnswer".data
  let suggested := getField q "suggestedAnswer".data
  if truthy accepted then
    match accepted with
    | .jstr s => .jstr s
    | _ => jsOr (getField accepted "text".data)
             (jsOr (getField accepted "answerText".data)
               (jsOr (getField accepted "description".data) (.jstr [])))
  else if truthy suggested && jsLenPos suggested then
    match jsIndex0 suggested with
    | .jstr s => .jstr s
    | f => jsOr (getField f "text".data) (jsOr (getField f "answerText".data) (.jstr []))
  else .jstr []

/-! ### Claim C4 — suggestedAnswer extraction -/

/-- A Question node with no `acceptedAnswer` whose `suggestedAnswer` is the
bare string literal `"Hello"`. -/
def c4Question : JVal :=
  .jobj [("@type".data, .jstr "Question".data),
         ("name".data, .jstr "Q1".data),
         ("suggestedAnswer".data, .jstr "Hello".data)]

/-- C4 counterexample: when `suggestedAnswer` is a bare non-empty string
literal, `suggestedAnswer[0]` in JS is the first character, so the extracted
raw answer is `"H"`, not the whole string `"Hello"` the claim requires. -/
theorem suggestedAnswer_string_first_char :
    extractRawAnswerV c4Question = JVal.jstr ['H'] ∧
    JVal.jstr ['H'] ≠ JVal.jstr "Hello".data := by
  refine ⟨rfl, fun h => ?_⟩
  injection h with h2
  exact absurd h2 (by decide)

/-- C4 amended: when `acceptedAnswer` is absent (falsy) and `suggestedAnswer`
is a non-empty array, the extracted raw answer comes from the first entry —
the entry itself when it is a string literal, else the entry's `text` or
`answerText` field; a bare string literal `suggestedAnswer` instead
contributes only its first character (see the counterexample). -/
theorem suggestedAnswer_first_entry (q x : JVal) (rest : List JVal)
    (hacc : truthy (getField q "acceptedAnswer".data) = false)
    (hsug : getField q "suggestedAnswer".data = .jarr (x :: rest)) :
    (∀ s, x = .jstr s → extractRawAnswerV q = .jstr s) ∧
    ((∀ s, x ≠ .jstr s) →
      extractRawAnswerV q =
        jsOr (getField x "text".data) (jsOr (getField x "answerText".data) (.jstr []))) := by
  constructor
  · intro s hx
    subst hx
    unfold extractRawAnswerV
    simp only [hacc, hsug]
    simp [truthy, jsLenPos, jsIndex0]
  · intro hx
    cases x with
    | jstr s => exact absurd rfl (hx s)
    | undefV =>
      unfold extractRawAnswerV
      simp only [hacc, hsug]
      simp [truthy, jsLenPos, jsIndex0]
    | jnull =>
      unfold extractRawAnswerV
      simp only [hacc, hsug]
      simp [truthy, jsLenPos, jsIndex0]
    | jbool b =>
      unfold extractRawAnswerV
      simp only [hacc, hsug]
      simp [truthy, jsLenPos, jsIndex0]
    | jnum n =>
      unfold extractRawAnswerV
      simp only [hacc, hsug]
      simp [truthy, jsLenPos, jsIndex0]
    | jarr xs =>
      unfold extractRawAnswerV
      simp only [hacc, hsug]
      simp [truthy, jsLenPos, jsIndex0]
    | jobj fs =>
      unfold extractRawAnswerV
      simp only [hacc, hsug]
      simp [truthy, jsLenPos, jsIndex0]

/-- C4 amended witness: a one-element `suggestedAnswer` array whose entry is
the string `"Hello"` yields the whole string. -/
theorem suggestedAnswer_first_entry_witness :
    extractRawAnswerV
      (.jobj [("@type".data, .jstr "Question".data),
              ("suggestedAnswer".data, .jarr [.jstr "Hello".data])]) =
      JVal.jstr "Hello".data :=
  (suggestedAnswer_first_entry
    (.jobj [("@type".data, .jstr "Question".data),
            ("suggestedAnswer".data, .jarr [.jstr "Hello".data])])
    (.jstr "Hello".data) [] (by rfl) (by rfl)).1 "Hello".data rfl

/-! ### HTML fragment model

The worker manipulates documents through `node-html-parser`, an external
collaborator (spec section 6).  The tree type and the parse / query /
serialize operations below model exactly the operations the worker uses, on
the well-formed fragments the claims exercise. -/

mutual
/-- An HTML node: raw text, or an element with tag, attributes and children. -/
inductive HNode where
  | textN : List Char → HNode
  | elemN : List Char → List (List Char × List Char) → HForest → HNode
/-- A list of sibling HTML nodes. -/
inductive HForest where
  | fnil : HForest
  | fcons : HNode → HForest → HForest
end

/-- Build a forest from a list of nodes. -/
def ofList : List HNode → HForest
  | [] => .fnil
  | n :: rest => .fcons n (ofList rest)

/-- `getAttribute`: `none` models the JS null/undefined for a missing attribute. -/
def getAttr (attrs : List (List Char × List Char)) (name : List Char) :
    Option (List Char) :=
  match attrs with
  | [] => none
  | (k, v) :: rest => if k = name then some v else getAttr rest name

/-- `setAttribute`: update in place, or append a new attribute at the end
(node-html-parser keeps attribute order and appends new ones). -/
def setAttr (attrs : List (List Char × List Char)) (name v : List Char) :
    List (List Char × List Char) :=
  match attrs with
  | [] => [(name, v)]
  | (k, w) :: rest => if k = name then (k, v) :: rest else (k, w) :: setAttr rest name v

/-- `removeAttribute`. -/
def removeAttr (attrs : List (List Char × List Char)) (name : List Char) :
    List (List Char × List Char) :=
  attrs.filter fun p => p.1 ≠ name

/-- Void elements, serialized without a closing tag. -/
def voidTag (t : List Char) : Bool :=
  t ∈ ["area".data, "base".data, "br".data, "col".data, "embed".data, "hr".data,
       "img".data, "input".data, "link".data, "meta".data, "param".data,
       "source".data, "track".data, "wbr".data]

/-- Attribute serialization: ` name="value"` for each attribute, in order. -/
def serializeAttrs : List (List Char × List Char) → List Char
  | [] => []
  | (n, v) :: rest => ' ' :: (n ++ ('=' :: '"' :: v ++ ['"'])) ++ serializeAttrs rest

mutual
/-- Serialize one node back to markup (node-html-parser `toString`). -/
def serializeN : HNode → List Char
  | .textN s => s
  | .elemN t attrs cs =>
    '<' :: (t ++ serializeAttrs attrs ++ ['>']) ++
      (if voidTag t then [] else serializeF cs ++ ('<' :: '/' :: t ++ ['>']))
/-- Serialize a forest (`innerHTML` of the parent). -/
def serializeF : HForest → List Char
  | .fnil => []
  | .fcons n rest => serializeN n ++ serializeF rest
end

mutual
/-- Concatenated text content of a node (node-html-parser `.text`). -/
def textOfN : HNode → List Char
  | .textN s => s
  | .elemN _ _ cs => textOfF cs
/-- Concatenated text content of a forest. -/
def textOfF : HForest → List Char
  | .fnil => []
  | .fcons n rest => textOfN n ++ textOfF rest
end

/-- The dangerous-tag set of `processAnswer` (src/index.js line 864). -/
def dangerousTags : List (List Char) :=
  ["script".data, "style".data, "iframe".data, "object".data,
   "embed".data, "form".data, "input".data, "button".data]

mutual
/-- Dangerous-element removal on one node: a dangerous element disappears
with its entire subtree; other elements keep their cleaned children. -/
def removeDangerN : HNode → Option HNode
  | .textN s => some (.textN s)
  | .elemN t a cs =>
    if t ∈ dangerousTags then none else some (.elemN t a (removeDangerF cs))
/-- Dangerous-element removal on a forest. -/
def removeDangerF : HForest → HForest
  | .fnil => .fnil
  | .fcons n rest =>
    match removeDangerN n with
    | none => removeDangerF rest
    | some n' => .fcons n' (removeDangerF rest)
end

mutual
/-- Whether a node is or contains a dangerous element. -/
def hasDangerN : HNode → Bool
  | .textN _ => false
  | .elemN t _ cs => decide (t ∈ dangerousTags) || hasDangerF cs
/-- Whether a forest contains a dangerous element. -/
def hasDangerF : HForest → Bool
  | .fnil => false
  | .fcons n rest => hasDangerN n || hasDangerF rest
end

/-- The attribute filter of the event-handler pass (src/index.js lines 871-880):
drop attributes whose name starts with `on` or whose value contains
`javascript:`. -/
def cleanEvAttrs (attrs : List (List Char × List Char)) :
    List (List Char × List Char) :=
  attrs.filter fun p => !("on".data.isPrefixOf p.1 || subOf "javascript:".data p.2)

mutual
/-- Event-handler attribute stripping, applied to every element. -/
def stripEvN : HNode → HNode
  | .textN s => .textN s
  | .elemN t a cs => .elemN t (cleanEvAttrs a) (stripEvF cs)
/-- Event-handler attribute stripping on a forest. -/
def stripEvF : HForest → HForest
  | .fnil => .fnil
  | .fcons n rest => .fcons (stripEvN n) (stripEvF rest)
end

/-- The `<a href>` rewrite of `processAnswer` (src/index.js lines 883-896):
a non-empty `href` not starting with `http`, `#` or `mailto:` is resolved
against the base URL (the `resolve` parameter models `new URL(href, baseUrl)`,
a platform API); on failure the `href` attribute is removed. -/
def processLinkAttrs (attrs : List (List Char × List Char))
    (resolve : List Char → Option (List Char)) (st : Stats) :
    List (List Char × List Char) × Stats :=
  match getAttr attrs "href".data with
  | none => (attrs, st)
  | some href =>
    if href.isEmpty then (attrs, st)
    else if "http".data.isPrefixOf href || "#".data.isPrefixOf href ||
        "mailto:".data.isPrefixOf href then (attrs, st)
    else
      match resolve href with
      | some abs =>
        (setAttr attrs "href".data abs,
         { st with relativeUrlsFixed := st.relativeUrlsFixed + 1 })
      | none => (removeAttr attrs "href".data, st)

mutual
/-- Link rewriting over a node. -/
def processLinksN (resolve : List Char → Option (List Char)) :
    HNode → Stats → HNode × Stats
  | .textN s, st => (.textN s, st)
  | .elemN t a cs, st =>
    let p := if t = "a".data then processLinkAttrs a resolve st else (a, st)
    let q := processLinksF resolve cs p.2
    (.elemN t p.1 q.1, q.2)
/-- Link rewriting over a forest. -/
def processLinksF (resolve : List Char → Option (List Char)) :
    HForest → Stats → HForest × Stats
  | .fnil, st => (.fnil, st)
  | .fcons n rest, st =>
    let p := processLinksN resolve n st
    let q := processLinksF resolve rest p.2
    (.fcons p.1 q.1, q.2)
end

mutual
/-- Number of `img` elements in a node (the loop counts them before
processing: src/index.js line 900). -/
def countImgsN : HNode → Nat
  | .textN _ => 0
  | .elemN t _ cs => (if t = "img".data then 1 else 0) + countImgsF cs
/-- Number of `img` elements in a forest. -/
def countImgsF : HForest → Nat
  | .fnil => 0
  | .fcons n rest => countImgsN n + countImgsF rest
end

/-- JS `img.getAttribute('alt') || fallback`: the fallback applies when the
attribute is missing or empty (falsy). -/
def altOr (cur : Option (List Char)) (fb : List Char) : List Char :=
  match cur with
  | some a => if a.isEmpty then fb else a
  | none => fb

/-- `if (!img.getAttribute('alt')) img.setAttribute('alt', 'FAQ image')`
(src/index.js lines 946-948). -/
def ensureAlt (attrs : List (List Char × List Char)) :
    List (List Char × List Char) :=
  match getAttr attrs "alt".data with
  | some v => if v.isEmpty then setAttr attrs "alt".data "FAQ image".data else attrs
  | none => setAttr attrs "alt".data "FAQ image".data

/-- The tail of the image loop body reached only by images that were neither
removed, nor data URIs, nor failed resolutions (src/index.js lines 942-952):
force `loading="lazy"`, default a missing/empty `alt` to `"FAQ image"`, mark
`data-verified="unverified"` and count the image as unverified. -/
def imgFinalize (attrs : List (List Char × List Char)) (st : Stats) :
    Option (List (List Char × List Char)) × Stats :=
  (some (setAttr (ensureAlt (setAttr attrs "loading".data "lazy".data))
      "data-verified".data "unverified".data),
   { st with unverifiedImages := st.unverifiedImages + 1 })

/-- The per-image body of the image loop (src/index.js lines 903-953).
`none` means the element is removed.  Data-URI images and images whose
relative `src` fails to resolve `continue` before the lazy/alt/unverified
section. -/
def processImgStep (attrs : List (List Char × List Char))
    (resolve : List Char → Option (List Char)) (st : Stats) :
    Option (List (List Char × List Char)) × Stats :=
  match getAttr attrs "src".data with
  | none => (none, st)
  | some src =>
    if src.isEmpty then (none, st)
    else if "data:".data.isPrefixOf src then
      if 100000 < src.length then
        let a1 := setAttr attrs "src".data "#".data
        let a2 := setAttr a1 "alt".data
          (altOr (getAttr a1 "alt".data) "Image too large to display".data)
        let a3 := setAttr a2 "data-error".data "embedded-image-too-large".data
        (some a3,
         { st with dataUrisRejected := st.dataUrisRejected + 1,
                   brokenImages := st.brokenImages + 1 })
      else (some attrs, st)
    else if "http".data.isPrefixOf src then imgFinalize attrs st
    else if "//".data.isPrefixOf src then
      imgFinalize (setAttr attrs "src".data ("https:".data ++ src))
        { st with relativeUrlsFixed := st.relativeUrlsFixed + 1 }
    else
      match resolve src with
      | some abs =>
        imgFinalize (setAttr attrs "src".data abs)
          { st with relativeUrlsFixed := st.relativeUrlsFixed + 1 }
      | none =>
        let a1 := setAttr attrs "data-broken".data "true".data
        let a2 := setAttr a1 "alt".data
          (altOr (getAttr a1 "alt".data) "Image unavailable".data)
        (some a2, { st with brokenImages := st.brokenImages + 1 })

mutual
/-- Image processing over a node. -/
def processImgsN (resolve : List Char → Option (List Char)) :
    HNode → Stats → Option HNode × Stats
  | .textN s, st => (some (.textN s), st)
  | .elemN t a cs, st =>
    if t = "img".data then
      let p := processImgStep a resolve st
      match p.1 with
      | none => (none, p.2)
      | some a' => (some (.elemN t a' cs), p.2)
    else
      let q := processImgsF resolve cs st
      (some (.elemN t a q.1), q.2)
/-- Image processing over a forest. -/
def processImgsF (resolve : List Char → Option (List Char)) :
    HForest → Stats → HForest × Stats
  | .fnil, st => (.fnil, st)
  | .fcons n rest, st =>
    let p := processImgsN resolve n st
    let q := processImgsF resolve rest p.2
    match p.1 with
    | none => q
    | some n' => (.fcons n' q.1, q.2)
end

mutual
/-- Whether a node is or contains an `img` element (`p.querySelector('img')`). -/
def hasImgN : HNode → Bool
  | .textN _ => false
  | .elemN t _ cs => decide (t = "img".data) || hasImgF cs
/-- Whether a forest contains an `img` element. -/
def hasImgF : HForest → Bool
  | .fnil => false
  | .fcons n rest => hasImgN n || hasImgF rest
end

mutual
/-- Empty-paragraph removal (src/index.js lines 956-961): a `p` whose text
trims to nothing and that contains no image is dropped. -/
def removeEmptyPsN : HNode → Option HNode
  | .textN s => some (.textN s)
  | .elemN t a cs =>
    if t = "p".data && (jsTrim (textOfF cs)).isEmpty && !hasImgF cs then none
    else some (.elemN t a (removeEmptyPsF cs))
/-- Empty-paragraph removal on a forest. -/
def removeEmptyPsF : HForest → HForest
  | .fnil => .fnil
  | .fcons n rest =>
    match removeEmptyPsN n with
    | none => removeEmptyPsF rest
    | some n' => .fcons n' (removeEmptyPsF rest)
end

/-! ### Fragment parser (models `parse(raw)` of node-html-parser) -/

/-- A lexical token of the fragment parser. -/
inductive HTok where
  | textT : List Char → HTok
  | openT : List Char → List (List Char × List Char) → Bool → HTok
  | closeT : List Char → HTok

/-- A character allowed in a tag name. -/
def tagNameChar (c : Char) : Bool := c.isAlpha || c.isDigit || c = '-'

/-- A character allowed in an attribute name. -/
def attrNameChar (c : Char) : Bool :=
  !jsWhite c && c ≠ '=' && c ≠ '>' && c ≠ '/'

/-- Lowercase a tag name (HTML tag names are case-insensitive). -/
def lowerStr (s : List Char) : List Char := s.map Char.toLower

/-- Scan the attribute section of an open tag up to `>` (or `/>`); returns the
attributes, the self-closing flag and the remainder of the input. -/
def scanAttrs : Nat → List Char → List (List Char × List Char) →
    List (List Char × List Char) × Bool × List Char
  | 0, s, acc => (acc.reverse, false, s)
  | fuel + 1, s, acc =>
    let s1 := s.dropWhile jsWhite
    match s1 with
    | [] => (acc.reverse, false, [])
    | '>' :: rest => (acc.reverse, false, rest)
    | '/' :: rest =>
      match rest with
      | '>' :: rest2 => (acc.reverse, true, rest2)
      | _ => scanAttrs fuel rest acc
    | _ =>
      let name := s1.takeWhile attrNameChar
      if name.isEmpty then scanAttrs fuel (s1.drop 1) acc
      else
        let s2 := (s1.drop name.length).dropWhile jsWhite
        match s2 with
        | '=' :: s3 =>
          let s4 := s3.dropWhile jsWhite
          match s4 with
          | '"' :: s5 =>
            let v := s5.takeWhile (· ≠ '"')
            scanAttrs fuel (s5.drop (v.length + 1)) ((name, v) :: acc)
          | '\x27' :: s5 =>
            let v := s5.takeWhile (· ≠ '\x27')
            scanAttrs fuel (s5.drop (v.length + 1)) ((name, v) :: acc)
          | _ =>
            let v := s4.takeWhile fun c => !jsWhite c && c ≠ '>'
            scanAttrs fuel (s4.drop v.length) ((name, v) :: acc)
        | _ => scanAttrs fuel s2 ((name, []) :: acc)

/-- Tokenize an HTML fragment. -/
def tokenizeAux : Nat → List Char → List HTok
  | 0, _ => []
  | _ + 1, [] => []
  | fuel + 1, '<' :: rest =>
    match rest with
    | [] => [.textT ['<']]
    | '/' :: r2 =>
      let name := r2.takeWhile (· ≠ '>')
      match r2.drop name.length with
      | '>' :: r3 => .closeT (lowerStr (jsTrim name)) :: tokenizeAux fuel r3
      | _ => [.textT ('<' :: rest)]
    | c :: r2 =>
      if c.isAlpha then
        let name := (c :: r2).takeWhile tagNameChar
        let p := scanAttrs (r2.length + 1) ((c :: r2).drop name.length) []
        .openT (lowerStr name) p.1 p.2.1 :: tokenizeAux fuel p.2.2
      else .textT ['<'] :: tokenizeAux fuel rest
  | fuel + 1, c :: rest =>
    let run := (c :: rest).takeWhile (· ≠ '<')
    .textT run :: tokenizeAux fuel ((c :: rest).drop run.length)

/-- A parse-stack frame: tag, attributes, children accumulated in reverse. -/
def HFrame : Type := List Char × List (List Char × List Char) × List HNode

/-- Close one frame, attaching the optional pending child produced by the
frame opened after it. -/
def closeOne (pending : Option HNode) (fr : HFrame) : HNode :=
  match fr, pending with
  | (t, a, kids), some c => .elemN t a (ofList (kids.reverse ++ [c]))
  | (t, a, kids), none => .elemN t a (ofList kids.reverse)

/-- Close every still-open frame at end of input (top of stack first). -/
def collapseStack (stack : List HFrame) (acc : List HNode) : List HNode :=
  match stack.foldl (fun p fr => some (closeOne p fr)) none with
  | some n => (n :: acc).reverse
  | none => acc.reverse

/-- Build the node forest from a token stream with an open-element stack. -/
def buildAux : List HTok → List HFrame → List HNode → List HNode
  | [], stack, acc => collapseStack stack acc
  | tok :: toks, stack, acc =>
    match tok with
    | .textT s =>
      match stack with
      | [] => buildAux toks [] (.textN s :: acc)
      | (t, a, kids) :: rest => buildAux toks ((t, a, .textN s :: kids) :: rest) acc
    | .openT t a selfC =>
      if voidTag t || selfC then
        match stack with
        | [] => buildAux toks [] (.elemN t a .fnil :: acc)
        | (t2, a2, kids) :: rest =>
          buildAux toks ((t2, a2, .elemN t a .fnil :: kids) :: rest) acc
      else buildAux toks ((t, a, []) :: stack) acc
    | .closeT t =>
      match stack with
      | [] => buildAux toks [] acc
      | (t2, a2, kids) :: rest =>
        if t2 = t then
          let node := HNode.elemN t2 a2 (ofList kids.reverse)
          match rest with
          | [] => buildAux toks [] (node :: acc)
          | (t3, a3, kids3) :: r3 => buildAux toks ((t3, a3, node :: kids3) :: r3) acc
        else buildAux toks stack acc

/-- `parse(raw)`: the parsed fragment as a forest. -/
def parseFragment (s : List Char) : HForest :=
  ofList (buildAux (tokenizeAux (s.length + 1) s) [] [])

/-! ### The answer sanitizer -/

/-- Everything `processAnswer` does before the final length check
(src/index.js lines 853-965): decode entities, parse, remove dangerous
elements, strip event-handler attributes, rewrite links, process images
(counting them first), drop empty paragraphs, serialize. -/
def answerCleaned (raw : List Char) (resolve : List Char → Option (List Char))
    (st : Stats) : List Char × Stats :=
  let n1 := parseFragment (decodeHtmlEntities raw)
  let n2 := removeDangerF n1
  let n3 := stripEvF n2
  let p4 := processLinksF resolve n3 st
  let st5 := { p4.2 with imagesProcessed := p4.2.imagesProcessed + countImgsF p4.1 }
  let p6 := processImgsF resolve p4.1 st5
  let n7 := removeEmptyPsF p6.1
  (serializeF n7, p6.2)

/-- The truncation marker appended by `processAnswer` (src/index.js line 971),
15 characters long. -/
def truncationMarker : List Char := "... (truncated)".data

/-- `replace(/<[^>]*$/, '')`: cut at the leftmost `<` that has no `>` after it. -/
def stripTrailingOpenTag : List Char → List Char
  | [] => []
  | c :: rest =>
    if c = '<' then
      if rest.contains '>' then c :: stripTrailingOpenTag rest else []
    else c :: stripTrailingOpenTag rest

/-- The final length check of `processAnswer` (src/index.js lines 968-974):
over 5000 characters, hard-truncate to 5000, strip a trailing incomplete tag,
append the truncation marker and count the truncation. -/
def finalizeAnswer (cleaned : List Char) (st : Stats) : List Char × Stats :=
  if 5000 < cleaned.length then
    (stripTrailingOpenTag (cleaned.take 5000) ++ truncationMarker,
     { st with truncatedAnswers := st.truncatedAnswers + 1 })
  else (cleaned, st)

/-- The `answersWithHtmlSanitized` bump at the top of `processAnswer`
(src/index.js line 854). -/
def sanitizedSt (st : Stats) : Stats :=
  { st with answersWithHtmlSanitized := st.answersWithHtmlSanitized + 1 }

/-- `processAnswer` (src/index.js lines 846-978).  `resolve` models the
platform's `new URL(·, baseUrl)` for the base URL of the request. -/
def processAnswer (raw : List Char) (resolve : List Char → Option (List Char))
    (st : Stats) : List Char × Stats :=
  if raw.isEmpty then ([], st)
  else
    finalizeAnswer
      (answerCleaned raw resolve (sanitizedSt st)).1
      (answerCleaned raw resolve (sanitizedSt st)).2

/-- A resolver under which every relative URL fails to resolve; the concrete
inputs below contain no relative URLs, so any resolver gives the same result. -/
def noResolve : List Char → Option (List Char) := fun _ => none

/-! ### Claim C9 — dangerous-tag removal -/

mutual
/-- A node surviving dangerous-element removal contains no dangerous element. -/
theorem removeDangerN_clean (n : HNode) :
    ∀ m, removeDangerN n = some m → hasDangerN m = false := by
  cases n with
  | textN s =>
    intro m h
    simp [removeDangerN] at h
    subst h
    simp [hasDangerN]
  | elemN t a cs =>
    intro m h
    simp only [removeDangerN] at h
    by_cases ht : t ∈ dangerousTags
    · simp [ht] at h
    · simp [ht] at h
      subst h
      simp [hasDangerN, ht, removeDangerF_clean cs]
/-- The forest after dangerous-element removal contains no dangerous element. -/
theorem removeDangerF_clean (f : HForest) : hasDangerF (removeDangerF f) = false := by
  cases f with
  | fnil => simp [removeDangerF, hasDangerF]
  | fcons n rest =>
    simp only [removeDangerF]
    cases hn : removeDangerN n with
    | none => exact removeDangerF_clean rest
    | some m => simp [hasDangerF, removeDangerN_clean n m hn, removeDangerF_clean rest]
end

/-- C9: dangerous elements (`script, style, iframe, object, embed, form,
input, button`) are removed with their entire subtrees — no dangerous element
survives in any cleaned forest — and the concrete input
`<script>alert(1)</script>Hello` sanitizes to exactly `Hello`, containing
neither `script` nor `alert`. -/
theorem dangerous_tags_removed :
    (∀ f : HForest, hasDangerF (removeDangerF f) = false) ∧
    (processAnswer "<script>alert(1)</script>Hello".data noResolve stats0).1 = "Hello".data ∧
    subOf "script".data (processAnswer "<script>alert(1)</script>Hello".data noResolve stats0).1 = false ∧
    subOf "alert".data (processAnswer "<script>alert(1)</script>Hello".data noResolve stats0).1 = false :=
  ⟨removeDangerF_clean, by decide, by decide, by decide⟩

/-! ### Claim C3 — image marking -/

/-- C3 counterexample: the data-URI image survives the sanitizer (the output
is the unchanged `<img src="data:x">`), yet the unverified-images counter
stays 0 and no `loading` attribute was forced — the image loop `continue`s
past the lazy/alt/unverified section for data URIs. -/
theorem dataUri_image_not_marked :
    (processAnswer "<img src=\"data:x\">".data noResolve stats0).1 =
      "<img src=\"data:x\">".data ∧
    (processAnswer "<img src=\"data:x\">".data noResolve stats0).2.unverifiedImages = 0 ∧
    (processAnswer "<img src=\"data:x\">".data noResolve stats0).2.imagesProcessed = 1 ∧
    subOf "loading".data (processAnswer "<img src=\"data:x\">".data noResolve stats0).1 = false ∧
    subOf "data-verified".data (processAnswer "<img src=\"data:x\">".data noResolve stats0).1 = false := by
  refine ⟨by decide, by decide, by decide, by decide, by decide⟩

/-- `setAttr` then reading the same name yields the new value. -/
theorem getAttr_setAttr_self (a : List (List Char × List Char)) (n v : List Char) :
    getAttr (setAttr a n v) n = some v := by
  induction a with
  | nil => simp [setAttr, getAttr]
  | cons p rest ih =>
    obtain ⟨k, w⟩ := p
    by_cases hk : k = n
    · subst hk
      simp [setAttr, getAttr]
    · simp only [setAttr, if_neg hk, getAttr]
      exact ih

/-- `setAttr` leaves other names unchanged. -/
theorem getAttr_setAttr_ne (a : List (List Char × List Char)) (n v m : List Char)
    (h : m ≠ n) : getAttr (setAttr a n v) m = getAttr a m := by
  induction a with
  | nil =>
    simp only [setAttr, getAttr]
    rw [if_neg fun hc => h hc.symm]
  | cons p rest ih =>
    obtain ⟨k, w⟩ := p
    by_cases hk : k = n
    · subst hk
      simp only [setAttr, if_pos rfl, getAttr]
      rw [if_neg fun hc => h hc.symm, if_neg fun hc => h hc.symm]
    · simp only [setAttr, if_neg hk, getAttr, ih]

/-- `ensureAlt` leaves attributes other than `alt` unchanged. -/
theorem ensureAlt_other (a : List (List Char × List Char)) (m : List Char)
    (h : m ≠ "alt".data) : getAttr (ensureAlt a) m = getAttr a m := by
  unfold ensureAlt
  cases hv : getAttr a "alt".data with
  | none =>
    simp only [hv]
    exact getAttr_setAttr_ne _ _ _ _ h
  | some v =>
    by_cases hemp : v.isEmpty
    · simp only [hv, if_pos hemp]
      exact getAttr_setAttr_ne _ _ _ _ h
    · have hemp' : v.isEmpty = false := by
        cases hb : v.isEmpty
        · rfl
        · exact absurd hb hemp
      simp only [hv, hemp', Bool.false_eq_true, if_false]

/-- After `ensureAlt` the `alt` attribute is present and non-empty. -/
theorem ensureAlt_some (a : List (List Char × List Char)) :
    ∃ v, getAttr (ensureAlt a) "alt".data = some v ∧ v ≠ [] := by
  unfold ensureAlt
  cases hv : getAttr a "alt".data with
  | none =>
    simp only [hv]
    exact ⟨_, getAttr_setAttr_self _ _ _, by decide⟩
  | some v =>
    by_cases hemp : v.isEmpty
    · simp only [hv, if_pos hemp]
      exact ⟨_, getAttr_setAttr_self _ _ _, by decide⟩
    · have hemp' : v.isEmpty = false := by
        cases hb : v.isEmpty
        · rfl
        · exact absurd hb hemp
      simp only [hv, hemp', Bool.false_eq_true, if_false]
      refine ⟨v, rfl, ?_⟩
      cases v with
      | nil => exact absurd rfl hemp
      | cons c rest => intro hc; cases hc

/-- The lazy/alt/unverified tail of the image loop marks the surviving image:
`loading="lazy"`, `data-verified="unverified"`, a non-empty `alt`, and the
unverified counter goes up by one. -/
theorem imgFinalize_spec (attrs : List (List Char × List Char)) (st : Stats) :
    ∃ a', (imgFinalize attrs st).1 = some a' ∧
      getAttr a' "loading".data = some "lazy".data ∧
      getAttr a' "data-verified".data = some "unverified".data ∧
      (∃ alt, getAttr a' "alt".data = some alt ∧ alt ≠ []) ∧
      (imgFinalize attrs st).2.unverifiedImages = st.unverifiedImages + 1 := by
  refine ⟨_, rfl, ?_, ?_, ?_, rfl⟩
  · rw [getAttr_setAttr_ne _ _ _ _ (by decide),
      ensureAlt_other _ _ (by decide), getAttr_setAttr_self]
  · rw [getAttr_setAttr_self]
  · obtain ⟨v, hval, hvne⟩ := ensureAlt_some (setAttr attrs "loading".data "lazy".data)
    refine ⟨v, ?_, hvne⟩
    rw [getAttr_setAttr_ne _ _ _ _ (by decide)]
    exact hval

/-- `//`-prefixed sources do not start with `http`. -/
theorem protocolRelative_not_http (src : List Char)
    (h : "//".data.isPrefixOf src = true) : "http".data.isPrefixOf src = false := by
  rcases src with _ | ⟨c, rest⟩
  · cases h
  · have hc : c = '/' := by
      have := h
      unfold List.isPrefixOf at this
      rcases Bool.and_eq_true_iff.mp this with ⟨h1, _⟩
      exact (beq_iff_eq.mp h1).symm
    subst hc
    rfl

/-- C3 amended: every image that survives the loop other than via the
data-URI or failed-resolution `continue` — absolute (`http...`) sources,
protocol-relative sources, and relative sources that resolve — is forced
lazy, given a non-empty `alt` (default `"FAQ image"`), marked
`data-verified="unverified"` and counted once as unverified.  Data-URI images
and failed resolutions are skipped by the `continue`s (see the
counterexample). -/
theorem img_marking_amended (attrs : List (List Char × List Char))
    (resolve : List Char → Option (List Char)) (st : Stats) (src : List Char)
    (hsrc : getAttr attrs "src".data = some src)
    (hne : src ≠ [])
    (hdata : "data:".data.isPrefixOf src = false)
    (hres : "http".data.isPrefixOf src = true ∨ "//".data.isPrefixOf src = true ∨
            (resolve src).isSome = true) :
    ∃ a', (processImgStep attrs resolve st).1 = some a' ∧
      getAttr a' "loading".data = some "lazy".data ∧
      getAttr a' "data-verified".data = some "unverified".data ∧
      (∃ alt, getAttr a' "alt".data = some alt ∧ alt ≠ []) ∧
      (processImgStep attrs resolve st).2.unverifiedImages = st.unverifiedImages + 1 := by
  have hempty : src.isEmpty = false := by
    cases src with
    | nil => exact absurd rfl hne
    | cons a b => rfl
  suffices hsuff : ∃ a2 st2, processImgStep attrs resolve st = imgFinalize a2 st2 ∧
      st2.unverifiedImages = st.unverifiedImages by
    obtain ⟨a2, st2, heq, hstat⟩ := hsuff
    obtain ⟨a', h1, h2, h3, h4, h5⟩ := imgFinalize_spec a2 st2
    refine ⟨a', ?_, h2, h3, h4, ?_⟩
    · rw [heq]; exact h1
    · rw [heq, h5, hstat]
  unfold processImgStep
  simp only [hsrc]
  rw [hempty, if_neg Bool.false_ne_true, hdata, if_neg Bool.false_ne_true]
  by_cases hhttp : "http".data.isPrefixOf src = true
  · rw [hhttp, if_pos rfl]
    exact ⟨attrs, st, rfl, rfl⟩
  · have hhttp' : "http".data.isPrefixOf src = false := by
      cases hb : "http".data.isPrefixOf src
      · rfl
      · exact absurd hb hhttp
    rw [hhttp', if_neg Bool.false_ne_true]
    by_cases hpr : "//".data.isPrefixOf src = true
    · rw [hpr, if_pos rfl]
      exact ⟨_, _, rfl, rfl⟩
    · have hpr' : "//".data.isPrefixOf src = false := by
        cases hb : "//".data.isPrefixOf src
        · rfl
        · exact absurd hb hpr
      rw [hpr', if_neg Bool.false_ne_true]
      rcases hres with h | h | h
      · exact absurd h hhttp
      · exact absurd h hpr
      · cases hr : resolve src with
        | none => rw [hr] at h; cases h
        | some abs =>
          simp only [hr]
          exact ⟨_, _, rfl, rfl⟩

/-- C3 amended witness: an absolute-`src` image gets all three markings and
the counter bump. -/
theorem img_marking_amended_witness :
    ∃ a', (processImgStep [("src".data, "http://e.com/i.png".data)] noResolve stats0).1 = some a' ∧
      getAttr a' "loading".data = some "lazy".data ∧
      getAttr a' "data-verified".data = some "unverified".data ∧
      (∃ alt, getAttr a' "alt".data = some alt ∧ alt ≠ []) ∧
      (processImgStep [("src".data, "http://e.com/i.png".data)] noResolve stats0).2.unverifiedImages =
        stats0.unverifiedImages + 1 :=
  img_marking_amended [("src".data, "http://e.com/i.png".data)] noResolve stats0
    "http://e.com/i.png".data (by decide) (by decide) (by decide) (Or.inl (by decide))

/-! ### Claim C6 — the 5000-character answer bound -/

/-- Stripping a trailing open tag never lengthens the string. -/
theorem stripTrailingOpenTag_length_le (s : List Char) :
    (stripTrailingOpenTag s).length ≤ s.length := by
  induction s with
  | nil => simp [stripTrailingOpenTag]
  | cons c rest ih =>
    rw [stripTrailingOpenTag]
    by_cases hc : c = '<'
    · rw [if_pos hc]
      by_cases hr : rest.contains '>'
      · rw [if_pos hr]
        simp only [List.length_cons]
        omega
      · rw [if_neg hr]
        simp
    · rw [if_neg hc]
      simp only [List.length_cons]
      omega

/-- The truncation stage never returns more than 5015 characters. -/
theorem finalizeAnswer_le (c : List Char) (st : Stats) :
    (finalizeAnswer c st).1.length ≤ 5015 := by
  unfold finalizeAnswer
  by_cases h : 5000 < c.length
  · rw [if_pos h]
    simp only [List.length_append]
    have h1 : (stripTrailingOpenTag (c.take 5000)).length ≤ 5000 := by
      calc (stripTrailingOpenTag (c.take 5000)).length
          ≤ (c.take 5000).length := stripTrailingOpenTag_length_le _
        _ ≤ 5000 := by
            rw [List.length_take]
            exact Nat.min_le_left _ _
    have h2 : truncationMarker.length = 15 := by decide
    omega
  · rw [if_neg h]
    show c.length ≤ 5015
    omega

/-- C6 amended: the sanitizer's output is bounded by 5015 characters — the
5000-character hard cut plus the 15-character truncation marker, not by 5000
as claimed (see the counterexample) — and whenever the serialized cleaned
markup exceeds 5000 characters, the truncation counter is incremented and the
output is a prefix part of at most 5000 characters followed by the marker. -/
theorem processAnswer_length_bound (raw : List Char)
    (resolve : List Char → Option (List Char)) (st : Stats) :
    (processAnswer raw resolve st).1.length ≤ 5015 ∧
    (∀ cleaned st', 5000 < cleaned.length →
      (finalizeAnswer cleaned st').2.truncatedAnswers = st'.truncatedAnswers + 1 ∧
      ∃ pre, (finalizeAnswer cleaned st').1 = pre ++ truncationMarker ∧
        pre.length ≤ 5000) := by
  constructor
  · unfold processAnswer
    by_cases h : raw.isEmpty
    · rw [if_pos h]
      simp
    · rw [if_neg h]
      exact finalizeAnswer_le _ _
  · intro cleaned st' h
    unfold finalizeAnswer
    rw [if_pos h]
    refine ⟨rfl, stripTrailingOpenTag (cleaned.take 5000), rfl, ?_⟩
    calc (stripTrailingOpenTag (cleaned.take 5000)).length
        ≤ (cleaned.take 5000).length := stripTrailingOpenTag_length_le _
      _ ≤ 5000 := by
          rw [List.length_take]
          exact Nat.min_le_left _ _

/-- C6 amended witness: a short input obeys the bound, and a 5001-character
cleaned string is truncated with the counter bumped. -/
theorem processAnswer_length_bound_witness :
    (processAnswer "x".data noResolve stats0).1.length ≤ 5015 ∧
    ((finalizeAnswer (List.replicate 5001 'a') stats0).2.truncatedAnswers =
        stats0.truncatedAnswers + 1 ∧
      ∃ pre, (finalizeAnswer (List.replicate 5001 'a') stats0).1 =
          pre ++ truncationMarker ∧ pre.length ≤ 5000) :=
  ⟨(processAnswer_length_bound "x".data noResolve stats0).1,
   (processAnswer_length_bound "x".data noResolve stats0).2
     (List.replicate 5001 'a') stats0
     (by rw [List.length_replicate]; norm_num)⟩

/-- Entity decoding is the identity on all-`'a'` strings. -/
theorem decodeAux_replicate_a : ∀ (n fuel : Nat), n < fuel →
    decodeEntitiesAux fuel (List.replicate n 'a') = List.replicate n 'a' := by
  intro n
  induction n with
  | zero =>
    intro fuel h
    cases fuel with
    | zero => omega
    | succ f => rfl
  | succ m ih =>
    intro fuel h
    cases fuel with
    | zero => omega
    | succ f =>
      rw [List.replicate_succ]
      have step : decodeEntitiesAux (f + 1) ('a' :: List.replicate m 'a') =
          'a' :: decodeEntitiesAux f (List.replicate m 'a') := rfl
      rw [step, ih f (by omega)]

/-- `decodeHtmlEntities` is the identity on all-`'a'` strings. -/
theorem decode_replicate_a (n : Nat) :
    decodeHtmlEntities (List.replicate n 'a') = List.replicate n 'a' := by
  unfold decodeHtmlEntities
  rw [List.length_replicate]
  exact decodeAux_replicate_a n (n + 1) (by omega)

/-- The tokenizer yields nothing on empty input at any fuel. -/
theorem tokenizeAux_nil (fuel : Nat) : tokenizeAux fuel [] = [] := by
  cases fuel with
  | zero => rfl
  | succ f => rfl

/-- A non-empty all-`'a'` string tokenizes to a single text token. -/
theorem tokenize_replicate_a (n fuel : Nat) :
    tokenizeAux (fuel + 1) (List.replicate (n + 1) 'a') =
      [HTok.textT (List.replicate (n + 1) 'a')] := by
  have step : tokenizeAux (fuel + 1) (List.replicate (n + 1) 'a') =
      .textT ((List.replicate (n + 1) 'a').takeWhile (· ≠ '<')) ::
        tokenizeAux fuel ((List.replicate (n + 1) 'a').drop
          ((List.replicate (n + 1) 'a').takeWhile (· ≠ '<')).length) := by
    rw [List.replicate_succ]
    rfl
  have htw : (List.replicate (n + 1) 'a').takeWhile (· ≠ '<') =
      List.replicate (n + 1) 'a' := by
    rw [List.takeWhile_eq_self_iff]
    intro x hx
    rw [List.eq_of_mem_replicate hx]
    decide
  rw [step, htw, List.drop_length, tokenizeAux_nil]

/-- A non-empty all-`'a'` string parses to a single text node. -/
theorem parse_replicate_a (n : Nat) :
    parseFragment (List.replicate (n + 1) 'a') =
      .fcons (.textN (List.replicate (n + 1) 'a')) .fnil := by
  unfold parseFragment
  rw [List.length_replicate]
  rw [tokenize_replicate_a n (n + 1)]
  rfl

/-- On a non-empty all-`'a'` answer the cleaning stages are the identity. -/
theorem answerCleaned_replicate_a (n : Nat)
    (resolve : List Char → Option (List Char)) (st : Stats) :
    (answerCleaned (List.replicate (n + 1) 'a') resolve st).1 =
      List.replicate (n + 1) 'a' := by
  unfold answerCleaned
  rw [decode_replicate_a, parse_replicate_a]
  show List.replicate (n + 1) 'a' ++ [] = List.replicate (n + 1) 'a'
  exact List.append_nil _

/-- Trailing-open-tag stripping is the identity on all-`'a'` strings. -/
theorem strip_replicate_a (m : Nat) :
    stripTrailingOpenTag (List.replicate m 'a') = List.replicate m 'a' := by
  induction m with
  | zero => rfl
  | succ k ih =>
    rw [List.replicate_succ, stripTrailingOpenTag, if_neg (by decide), ih]

/-- C6 counterexample: a 6000-character plain-text answer sanitizes to
exactly 5015 characters (the 5000-character cut plus the 15-character
marker `... (truncated)`), strictly more than the claimed 5000 bound. -/
theorem answer_length_exceeds_5000 :
    (processAnswer (List.replicate 6000 'a') noResolve stats0).1.length = 5015 ∧
    5000 < (processAnswer (List.replicate 6000 'a') noResolve stats0).1.length := by
  have h6000 : (6000 : Nat) = 5999 + 1 := by norm_num
  have hne : (List.replicate 6000 'a').isEmpty = false := by
    rw [h6000, List.replicate_succ]
    rfl
  have hclean : (answerCleaned (List.replicate 6000 'a') noResolve
      (sanitizedSt stats0)).1 = List.replicate 6000 'a' := by
    rw [h6000]
    exact answerCleaned_replicate_a 5999 noResolve (sanitizedSt stats0)
  have hmain : (processAnswer (List.replicate 6000 'a') noResolve stats0).1.length = 5015 := by
    unfold processAnswer
    rw [hne, if_neg Bool.false_ne_true, hclean]
    unfold finalizeAnswer
    rw [List.length_replicate, if_pos (by norm_num), List.length_append,
      List.take_replicate]
    have hmin : min 5000 6000 = 5000 := by norm_num
    rw [hmin, strip_replicate_a, List.length_replicate]
    decide
  exact ⟨hmain, by rw [hmain]; norm_num⟩

/-! ### Anchors and identifiers -/

/-- A character allowed in an anchor token: `[a-zA-Z0-9_-]`. -/
def anchorChar (c : Char) : Bool := c.isAlpha || c.isDigit || c = '_' || c = '-'

/-- Collapse runs of `-` (regex `-+` → `-`); the flag mirrors `collapseWsAux`. -/
def collapseDashes : Bool → List Char → List Char
  | _, [] => []
  | inD, c :: rest =>
    if c = '-' then
      if inD then collapseDashes true rest
      else '-' :: collapseDashes true rest
    else c :: collapseDashes false rest

/-- `replace(/^-+|-+$/g, '')`: strip dash runs from both ends. -/
def trimDashes (s : List Char) : List Char :=
  ((s.dropWhile (· = '-')).reverse.dropWhile (· = '-')).reverse

/-- `sanitizeAnchor` (src/index.js lines 981-993): `null` for a falsy input,
else replace unsafe characters with `-`, collapse dash runs, trim dashes at
both ends, cut at 100 characters. -/
def sanitizeAnchor : Option (List Char) → Option (List Char)
  | none => none
  | some s =>
    if s.isEmpty then none
    else some ((trimDashes (collapseDashes false
        (s.map fun c => if anchorChar c then c else '-'))).take 100)

/-- `s.split('#').pop()`: the substring after the last `#` (the whole string
when no `#` is present). -/
def hashFrag (s : List Char) : List Char :=
  (s.reverse.takeWhile (· ≠ '#')).reverse

/-! ### JSON-LD traversal -/

/-- Strict string equality test `v === s`. -/
def isStr (v : JVal) (s : List Char) : Bool :=
  match v with
  | .jstr t => t = s
  | _ => false

/-- `typeof v === 'object' && v` (arrays included, `null` excluded). -/
def isObjLike : JVal → Bool
  | .jobj _ => true
  | .jarr _ => true
  | _ => false

/-- The string content of a value, empty for non-strings (a truthy non-string
would make the JS throw inside the per-script try/catch; the claims only
exercise strings). -/
def jstrOrEmpty : JVal → List Char
  | .jstr s => s
  | _ => []

/-- Identifier extraction of `traverseEnhancedLd` (src/index.js lines
570-577): `@id || id || url || null`; when the value contains `#`, keep only
the fragment after the last `#`; a still-truthy value is anchor-sanitized
(an empty fragment is kept as-is, skipping sanitisation). -/
def ldRecordId (q : JVal) : Option (List Char) :=
  match jsOr (getField q "@id".data) (jsOr (getField q "id".data) (getField q "url".data)) with
  | .jstr s =>
    if s.isEmpty then none
    else
      let s' := if subOf "#".data s then hashFrag s else s
      if s'.isEmpty then some s' else sanitizeAnchor (some s')
  | _ => none

/-- Process one `mainEntity` entry of a FAQPage (src/index.js lines 522-585):
`@type` must include `Question`; question from `name || question`, normalised
(skip when empty); answer via `extractRawAnswerV`, sanitised (skip when
empty); identifier via `ldRecordId`. -/
def processLdQuestion (q : JVal) (resolve : List Char → Option (List Char))
    (st : Stats) : Option FAQ × Stats :=
  let ty := getField q "@type".data
  if !truthy ty || !jsIncl ty "Question".data then (none, st)
  else
    let pq := processQuestion
      (jstrOrEmpty (jsOr (getField q "name".data) (getField q "question".data))) st
    if pq.1.isEmpty then (none, pq.2)
    else
      let rawA := jstrOrEmpty (extractRawAnswerV q)
      if rawA.isEmpty then (none, pq.2)
      else
        let pa := processAnswer rawA resolve pq.2
        (some ⟨pq.1, pa.1, ldRecordId q⟩, pa.2)

/-- `traverseEnhancedLd` (src/index.js lines 495-604).  The fuel argument
exists only to make the recursion structural: the top-level call passes 10
and every recursive call decreases fuel while increasing depth, so fuel is
`10 - depth` and the source's `depth > 5` guard always fires before fuel can
run out (depth never exceeds 6, where fuel is still 4). -/
def traverseLd : Nat → JVal → (List Char → Option (List Char)) → Stats → Nat →
    List FAQ × Stats
  | 0, _, _, st, _ => ([], st)
  | fuel + 1, v, resolve, st, depth =>
    if 5 < depth then ([], st)
    else if !isObjLike v then ([], st)
    else
      let ty := getField v "@type".data
      let me := getField v "mainEntity".data
      let isFaq :=
        match ty with
        | .jarr xs => xs.any fun x => isStr x "FAQPage".data
        | _ => isStr ty "FAQPage".data
      let nested := truthy me && isStr (getField me "@type".data) "FAQPage".data
      let part1 : List FAQ × Stats :=
        if isFaq || nested then
          let faqContent := if nested then me else v
          let ment := jsOr (getField faqContent "mainEntity".data)
            (getField faqContent "hasPart".data)
          if truthy ment then
            let items := match ment with | .jarr xs => xs | x => [x]
            items.foldl (fun acc q =>
              let p := processLdQuestion q resolve acc.2
              match p.1 with
              | some f => (acc.1 ++ [f], p.2)
              | none => (acc.1, p.2)) ([], st)
          else ([], st)
        else ([], st)
      let part2 : List FAQ × Stats :=
        match getField v "@graph".data with
        | .jarr items =>
          items.foldl (fun acc it =>
            let p := traverseLd fuel it resolve acc.2 (depth + 1)
            (acc.1 ++ p.1, p.2)) ([], part1.2)
        | _ => ([], part1.2)
      let part3 : List FAQ × Stats :=
        if truthy me && depth < 3 then traverseLd fuel me resolve part2.2 (depth + 1)
        else ([], part2.2)
      (part1.1 ++ part2.1 ++ part3.1, part3.2)

/-! ### JSON-LD script preprocessing and extraction -/

/-- The line-comment removal regex `/^(\s*)\/\/(?!\/).*$/gm` as a scan: at a
line-start position, a whitespace run (which may span blank lines) followed
by `//` not followed by a third `/` is removed through the end of that line;
otherwise scanning advances one character, tracking line starts. -/
def stripLineCommentsAux : Nat → Bool → List Char → List Char
  | 0, _, s => s
  | fuel + 1, atStart, s =>
    match s with
    | [] => []
    | c :: rest =>
      if atStart then
        let w := s.takeWhile jsWhite
        match s.drop w.length with
        | '/' :: '/' :: t =>
          if t.head? = some '/' then c :: stripLineCommentsAux fuel (c = '\n') rest
          else stripLineCommentsAux fuel false (t.dropWhile (· ≠ '\n'))
        | _ => c :: stripLineCommentsAux fuel (c = '\n') rest
      else c :: stripLineCommentsAux fuel (c = '\n') rest

/-- Line-comment removal over a whole script (starts at a line start). -/
def stripLineComments (s : List Char) : List Char :=
  stripLineCommentsAux (s.length + 1) true s

/-- Find the end of a lazy block comment: drop through the first `*/`. -/
def dropUntilStarSlash : Nat → List Char → Option (List Char)
  | 0, _ => none
  | _ + 1, [] => none
  | _ + 1, '*' :: '/' :: rest => some rest
  | fuel + 1, _ :: rest => dropUntilStarSlash fuel rest

/-- The block-comment removal regex `/\/\*[\s\S]*?\*\//g` as a scan. -/
def stripBlockCommentsAux : Nat → List Char → List Char
  | 0, s => s
  | _ + 1, [] => []
  | fuel + 1, '/' :: rest =>
    match rest with
    | '*' :: t =>
      match dropUntilStarSlash (t.length + 1) t with
      | some rem => stripBlockCommentsAux fuel rem
      | none => '/' :: stripBlockCommentsAux fuel rest
    | _ => '/' :: stripBlockCommentsAux fuel rest
  | fuel + 1, c :: rest => c :: stripBlockCommentsAux fuel rest

/-- The control-character class `[\u0000-\u001F\u007F-\u009F]`. -/
def isCtrl (c : Char) : Bool :=
  c.toNat ≤ 0x1F || (0x7F ≤ c.toNat && c.toNat ≤ 0x9F)

/-- Remove control characters. -/
def stripControls (s : List Char) : List Char := s.filter fun c => !isCtrl c

/-- The trailing-comma regex `/,(\s*[}\]])/g` replaced by `$1`. -/
def fixTrailingCommasAux : Nat → List Char → List Char
  | 0, s => s
  | _ + 1, [] => []
  | fuel + 1, ',' :: rest =>
    let w := rest.takeWhile jsWhite
    match rest.drop w.length with
    | c :: t =>
      if c = '\x7d' || c = ']' then w ++ (c :: fixTrailingCommasAux fuel t)
      else ',' :: fixTrailingCommasAux fuel rest
    | [] => ',' :: fixTrailingCommasAux fuel rest
  | fuel + 1, c :: rest => c :: fixTrailingCommasAux fuel rest

/-- Drop a leading byte-order mark. -/
def dropBOM : List Char → List Char
  | [] => []
  | c :: rest => if c.toNat = 0xFEFF then rest else c :: rest

/-- The recovery preprocessing of `extractEnhancedJsonLd` (src/index.js lines
446-457), in source order: line comments, block comments, control characters,
trailing commas, BOM, trim. -/
def preprocessJson (s : List Char) : List Char :=
  let s1 := stripLineComments s
  let s2 := stripBlockCommentsAux (s1.length + 1) s1
  let s3 := stripControls s2
  let s4 := fixTrailingCommasAux (s3.length + 1) s3
  jsTrim (dropBOM s4)

/-- One script's parse attempt (src/index.js lines 430-468): strict parse of
the trimmed content, else parse of the preprocessed content; `parseJson`
models the platform's `JSON.parse` (`none` = exception). -/
def tryParseScript (parseJson : List Char → Option JVal) (content : List Char) :
    Option JVal :=
  match parseJson (jsTrim content) with
  | some v => some v
  | none => parseJson (preprocessJson (jsTrim content))

/-- Traversal of one successfully parsed script value (src/index.js lines
473-480): a bare object is treated as a one-element array, each root object
is traversed from depth 0. -/
def jsonLdScriptPass (resolve : List Char → Option (List Char)) (data : JVal)
    (st : Stats) : List FAQ × Stats :=
  (match data with | JVal.jarr xs => xs | v => [v]).foldl (fun acc it =>
    let t := traverseLd 10 it resolve acc.2 0
    (acc.1 ++ t.1, t.2)) ([], st)

/-- `extractEnhancedJsonLd` (src/index.js lines 418-492) over the list of
JSON-LD script contents in document order: each script parses independently,
an unparsable script is skipped, a parsed value (object or array of objects)
is traversed from depth 0. -/
def extractEnhancedJsonLd (parseJson : List Char → Option JVal)
    (resolve : List Char → Option (List Char)) :
    List (List Char) → Stats → List FAQ × Stats
  | [], st => ([], st)
  | s :: rest, st =>
    match tryParseScript parseJson s with
    | none => extractEnhancedJsonLd parseJson resolve rest st
    | some data =>
      let p := jsonLdScriptPass resolve data st
      let q := extractEnhancedJsonLd parseJson resolve rest p.2
      (p.1 ++ q.1, q.2)

/-! ### Claim C10 — malformed scripts are skipped -/

/-- A script that fails both parse attempts is skipped. -/
theorem extractJsonLd_cons_none (parseJson : List Char → Option JVal)
    (resolve : List Char → Option (List Char)) (s : List Char)
    (rest : List (List Char)) (st : Stats)
    (h : tryParseScript parseJson s = none) :
    extractEnhancedJsonLd parseJson resolve (s :: rest) st =
      extractEnhancedJsonLd parseJson resolve rest st := by
  rw [extractEnhancedJsonLd]
  simp only [h]

/-- A script that parses contributes its traversal followed by the rest. -/
theorem extractJsonLd_cons_some (parseJson : List Char → Option JVal)
    (resolve : List Char → Option (List Char)) (s : List Char)
    (rest : List (List Char)) (st : Stats) (data : JVal)
    (h : tryParseScript parseJson s = some data) :
    extractEnhancedJsonLd parseJson resolve (s :: rest) st =
      ((jsonLdScriptPass resolve data st).1 ++
        (extractEnhancedJsonLd parseJson resolve rest
          (jsonLdScriptPass resolve data st).2).1,
       (extractEnhancedJsonLd parseJson resolve rest
         (jsonLdScriptPass resolve data st).2).2) := by
  rw [extractEnhancedJsonLd]
  simp only [h]

/-- C10: a script whose content fails both parse attempts contributes nothing
and every other script is processed exactly as if the malformed one were
absent — for any position of the malformed script, extraction of
`l1 ++ bad :: l2` equals extraction of `l1` followed by extraction of `l2`. -/
theorem jsonld_skips_malformed (parseJson : List Char → Option JVal)
    (resolve : List Char → Option (List Char)) (l1 : List (List Char))
    (bad : List Char) (l2 : List (List Char)) (st : Stats)
    (h : tryParseScript parseJson bad = none) :
    extractEnhancedJsonLd parseJson resolve (l1 ++ bad :: l2) st =
      ((extractEnhancedJsonLd parseJson resolve l1 st).1 ++
        (extractEnhancedJsonLd parseJson resolve l2
          (extractEnhancedJsonLd parseJson resolve l1 st).2).1,
       (extractEnhancedJsonLd parseJson resolve l2
         (extractEnhancedJsonLd parseJson resolve l1 st).2).2) := by
  induction l1 generalizing st with
  | nil =>
    have h0 : extractEnhancedJsonLd parseJson resolve [] st = ([], st) := rfl
    rw [List.nil_append, extractJsonLd_cons_none parseJson resolve bad l2 st h, h0]
    simp
  | cons s l1' ih =>
    rw [List.cons_append]
    cases hs : tryParseScript parseJson s with
    | none =>
      rw [extractJsonLd_cons_none parseJson resolve s (l1' ++ bad :: l2) st hs,
        extractJsonLd_cons_none parseJson resolve s l1' st hs]
      exact ih st
    | some data =>
      rw [extractJsonLd_cons_some parseJson resolve s (l1' ++ bad :: l2) st data hs,
        extractJsonLd_cons_some parseJson resolve s l1' st data hs, ih]
      simp [List.append_assoc]

/-- A minimal FAQPage value for the C10 witness. -/
def goodLd : JVal :=
  .jobj [("@type".data, .jstr "FAQPage".data),
         ("mainEntity".data, .jarr [
            .jobj [("@type".data, .jstr "Question".data),
                   ("name".data, .jstr "Q1".data),
                   ("acceptedAnswer".data, .jobj [("text".data, .jstr "A1".data)])]])]

/-- A concrete `JSON.parse` model: the script `G` parses to `goodLd`, every
other content (in particular the malformed `\x7b`) throws. -/
def demoParse : List Char → Option JVal :=
  fun s => if s = "G".data then some goodLd else none

/-- C10 witness: with the malformed script first, the valid second script
still produces its one record. -/
theorem jsonld_skips_malformed_witness :
    extractEnhancedJsonLd demoParse noResolve ([] ++ "\x7b".data :: ["G".data]) stats0 =
      ((extractEnhancedJsonLd demoParse noResolve [] stats0).1 ++
        (extractEnhancedJsonLd demoParse noResolve ["G".data]
          (extractEnhancedJsonLd demoParse noResolve [] stats0).2).1,
       (extractEnhancedJsonLd demoParse noResolve ["G".data]
         (extractEnhancedJsonLd demoParse noResolve [] stats0).2).2) ∧
    (extractEnhancedJsonLd demoParse noResolve ["\x7b".data, "G".data] stats0).1.length = 1 :=
  ⟨jsonld_skips_malformed demoParse noResolve [] "\x7b".data ["G".data] stats0 rfl, rfl⟩

/-! ### Microdata extraction -/

mutual
/-- Elements matching `p` within a forest, in document (pre-)order. -/
def qsaF (p : HNode → Bool) : HForest → List HNode
  | .fnil => []
  | .fcons n rest => qsaN p n ++ qsaF p rest
/-- Elements matching `p` within a node's tree, the node itself included. -/
def qsaN (p : HNode → Bool) : HNode → List HNode
  | .textN _ => []
  | .elemN t a cs =>
    (if p (.elemN t a cs) then [HNode.elemN t a cs] else []) ++ qsaF p cs
end

/-- `querySelectorAll` on an element: matching strict descendants. -/
def qsaOf (p : HNode → Bool) (e : HNode) : List HNode :=
  match e with
  | .textN _ => []
  | .elemN _ _ cs => qsaF p cs

/-- `querySelector`: the first matching strict descendant. -/
def qFirst (p : HNode → Bool) (e : HNode) : Option HNode := (qsaOf p e).head?

mutual
/-- Descendant-combinator collection over a forest: targets matched only
below an ancestor that matched `pAnc` (the flag records such an ancestor). -/
def qsaUnderF (pAnc pTgt : HNode → Bool) (anc : Bool) : HForest → List HNode
  | .fnil => []
  | .fcons n rest => qsaUnderN pAnc pTgt anc n ++ qsaUnderF pAnc pTgt anc rest
/-- Descendant-combinator collection over a node. -/
def qsaUnderN (pAnc pTgt : HNode → Bool) (anc : Bool) : HNode → List HNode
  | .textN _ => []
  | .elemN t a cs =>
    (if anc && pTgt (.elemN t a cs) then [HNode.elemN t a cs] else []) ++
      qsaUnderF pAnc pTgt (anc || pAnc (.elemN t a cs)) cs
end

/-- `querySelector('[anc] [tgt]')` on an element. -/
def qFirstUnder (pAnc pTgt : HNode → Bool) (e : HNode) : Option HNode :=
  match e with
  | .textN _ => none
  | .elemN _ _ cs => (qsaUnderF pAnc pTgt false cs).head?

/-- The attributes of a node (empty for text). -/
def elemAttrs : HNode → List (List Char × List Char)
  | .textN _ => []
  | .elemN _ a _ => a

/-- `getAttribute` on an element node. -/
def getAttrE (e : HNode) (name : List Char) : Option (List Char) :=
  getAttr (elemAttrs e) name

/-- `innerHTML`: the serialized children. -/
def innerHTML : HNode → List Char
  | .textN _ => []
  | .elemN _ _ cs => serializeF cs

/-- Selector `[name]`: attribute present. -/
def attrHas (e : HNode) (name : List Char) : Bool := (getAttrE e name).isSome

/-- Selector `[name*="sub"]`: attribute value contains the substring. -/
def attrContains (e : HNode) (name sub : List Char) : Bool :=
  match getAttrE e name with
  | some v => subOf sub v
  | none => false

/-- Selector `[name="v"]`: attribute value equals. -/
def attrEq (e : HNode) (name v : List Char) : Bool :=
  match getAttrE e name with
  | some w => w = v
  | none => false

/-- `[itemscope][itemtype*="FAQPage"]`. -/
def pFAQPage (e : HNode) : Bool :=
  attrHas e "itemscope".data && attrContains e "itemtype".data "FAQPage".data

/-- `[itemscope][itemtype*="Question"]`. -/
def pMicroQuestion (e : HNode) : Bool :=
  attrHas e "itemscope".data && attrContains e "itemtype".data "Question".data

/-- `[itemprop="name"]`. -/
def pItempropName (e : HNode) : Bool := attrEq e "itemprop".data "name".data

/-- `[itemprop="text"]`. -/
def pItempropText (e : HNode) : Bool := attrEq e "itemprop".data "text".data

/-- `[itemprop="acceptedAnswer"]`. -/
def pItempropAccepted (e : HNode) : Bool :=
  attrEq e "itemprop".data "acceptedAnswer".data

/-- `[itemprop="suggestedAnswer"]`. -/
def pItempropSuggested (e : HNode) : Bool :=
  attrEq e "itemprop".data "suggestedAnswer".data

/-- The raw element identifier
`q.getAttribute('id') || q.getAttribute('itemid')?.split('#').pop()`
(src/index.js lines 632 and 647-649); `none` models the JS undefined. -/
def rawElemId (e : HNode) : Option (List Char) :=
  match getAttrE e "id".data with
  | some s =>
    if s.isEmpty then (getAttrE e "itemid".data).map hashFrag else some s
  | none => (getAttrE e "itemid".data).map hashFrag

/-- The question text of a Microdata question element (src/index.js lines
654-660): the `[itemprop="name"]` descendant's text, else its `content`
attribute, else empty. -/
def microQuestionText (e : HNode) : List Char :=
  match qFirst pItempropName e with
  | none => []
  | some nameEl =>
    let t := textOfN nameEl
    if t.isEmpty then
      match getAttrE nameEl "content".data with
      | some c => c
      | none => []
    else t

/-- The raw answer of a Microdata question element (src/index.js lines
669-699): a `[itemprop="text"]` descendant's inner markup, else the
`acceptedAnswer` descendant's own `text` descendant or its inner markup,
else the `suggestedAnswer`-nested `text` descendant's inner markup. -/
def microRawAnswer (e : HNode) : List Char :=
  let a1 :=
    match qFirst pItempropText e with
    | some tEl => innerHTML tEl
    | none =>
      match qFirst pItempropAccepted e with
      | some aEl =>
        match qFirst pItempropText aEl with
        | some t2 => innerHTML t2
        | none => innerHTML aEl
      | none => []
  if a1.isEmpty then
    match qFirstUnder pItempropSuggested pItempropText e with
    | some sEl => innerHTML sEl
    | none => []
  else a1

/-- `processMicrodataQuestion` (src/index.js lines 642-714): skip on missing
question or answer text, otherwise push a record whose id is the
anchor-sanitized raw element id. -/
def processMicrodataQuestion (e : HNode) (resolve : List Char → Option (List Char))
    (st : Stats) : Option FAQ × Stats :=
  if (processQuestion (microQuestionText e) st).1.isEmpty then
    (none, (processQuestion (microQuestionText e) st).2)
  else if (microRawAnswer e).isEmpty then
    (none, (processQuestion (microQuestionText e) st).2)
  else
    (some ⟨(processQuestion (microQuestionText e) st).1,
           (processAnswer (microRawAnswer e) resolve
             (processQuestion (microQuestionText e) st).2).1,
           sanitizeAnchor (rawElemId e)⟩,
     (processAnswer (microRawAnswer e) resolve
       (processQuestion (microQuestionText e) st).2).2)

/-- The FAQPage-scoped pass (src/index.js lines 614-623): every
`[itemscope][itemtype*="Question"]` descendant of every
`[itemscope][itemtype*="FAQPage"]` container, in document order. -/
def microdataPass1 (root : HNode) (resolve : List Char → Option (List Char))
    (st : Stats) : List FAQ × Stats :=
  (qsaOf pFAQPage root).foldl (fun acc fp =>
    (qsaOf pMicroQuestion fp).foldl (fun acc2 q =>
      let p := processMicrodataQuestion q resolve acc2.2
      match p.1 with
      | some f => (acc2.1 ++ [f], p.2)
      | none => (acc2.1, p.2)) acc) ([], st)

/-- The truthy produced identifiers (src/index.js line 629:
`new Set(faqs.map(f => f.id).filter(Boolean))`). -/
def producedIds (faqs : List FAQ) : List (List Char) :=
  (faqs.filterMap (·.id)).filter fun s => !s.isEmpty

/-- The skip test of the standalone pass (src/index.js line 633): the raw
element id is a member of the produced-ids set. -/
def pass2Skips (ids : List (List Char)) (e : HNode) : Bool :=
  match rawElemId e with
  | some s => ids.contains s
  | none => false

/-- The standalone-Question pass (src/index.js lines 626-636). -/
def microdataPass2 (root : HNode) (resolve : List Char → Option (List Char))
    (ids : List (List Char)) (st : Stats) : List FAQ × Stats :=
  (qsaOf pMicroQuestion root).foldl (fun acc q =>
    if pass2Skips ids q then acc
    else
      let p := processMicrodataQuestion q resolve acc.2
      match p.1 with
      | some f => (acc.1 ++ [f], p.2)
      | none => (acc.1, p.2)) ([], st)

/-- `extractEnhancedMicrodata` (src/index.js lines 607-640): the FAQPage
pass, then the standalone pass filtered by the produced ids. -/
def extractEnhancedMicrodata (root : HNode) (resolve : List Char → Option (List Char))
    (st : Stats) : List FAQ × Stats :=
  (((microdataPass1 root resolve st).1 ++
     (microdataPass2 root resolve (producedIds (microdataPass1 root resolve st).1)
       (microdataPass1 root resolve st).2).1),
   (microdataPass2 root resolve (producedIds (microdataPass1 root resolve st).1)
     (microdataPass1 root resolve st).2).2)

/-! ### Claim C8 — duplicate suppression between the two Microdata passes -/

/-- Literal-attribute element construction for concrete documents. -/
def elemL (t : String) (attrs : List (String × String)) (children : List HNode) :
    HNode :=
  .elemN t.data (attrs.map fun p => (p.1.data, p.2.data)) (ofList children)

/-- A page whose FAQPage-wrapped question carries the identifier `q.1`, valid
as an HTML `id` but altered by anchor sanitisation (`q.1` → `q-1`). -/
def c8Doc : HNode :=
  elemL "html" [] [elemL "body" [] [
    elemL "div" [("itemscope", ""), ("itemtype", "https://schema.org/FAQPage")] [
      elemL "div" [("itemscope", ""), ("itemtype", "https://schema.org/Question"),
                   ("id", "q.1")] [
        elemL "h3" [("itemprop", "name")] [.textN "What is X?".data],
        elemL "div" [("itemprop", "acceptedAnswer"), ("itemscope", ""),
                     ("itemtype", "https://schema.org/Answer")] [
          elemL "div" [("itemprop", "text")] [.textN "It is Y.".data]]]]]]

/-- C8 counterexample: the FAQPage-wrapped question with identifier `q.1` is
emitted twice — the skip set holds the sanitized id `q-1` while the
standalone pass compares the raw id `q.1`, so the claim's "exactly one
record" fails. -/
theorem microdata_duplicate_for_sanitized_id :
    (extractEnhancedMicrodata c8Doc noResolve stats0).1 =
      [⟨"What is X?".data, "It is Y.".data, some "q-1".data⟩,
       ⟨"What is X?".data, "It is Y.".data, some "q-1".data⟩] ∧
    (extractEnhancedMicrodata c8Doc noResolve stats0).1.length = 2 := by
  refine ⟨by decide, by decide⟩

/-- C8 amended: the standalone pass skips an element precisely when its raw
resolved id (the `id` attribute, else the `itemid` fragment) is a member of
the produced-ids set, an element without a raw id is never skipped, the
extractor is the FAQPage pass followed by the standalone pass filtered by the
produced (truthy) ids, and every record a question element produces carries
the anchor-sanitized form of its raw id — hence an identified element is
suppressed in the standalone pass only when its raw id already equals a
produced sanitized id, and an id altered by sanitisation is emitted twice
(see the counterexample). -/
theorem microdata_pass2_skip_amended :
    (∀ ids (e : HNode) r, rawElemId e = some r →
      (pass2Skips ids e = true ↔ r ∈ ids)) ∧
    (∀ ids (e : HNode), rawElemId e = none → pass2Skips ids e = false) ∧
    (∀ root resolve st, extractEnhancedMicrodata root resolve st =
      ((microdataPass1 root resolve st).1 ++
        (microdataPass2 root resolve (producedIds (microdataPass1 root resolve st).1)
          (microdataPass1 root resolve st).2).1,
       (microdataPass2 root resolve (producedIds (microdataPass1 root resolve st).1)
         (microdataPass1 root resolve st).2).2)) ∧
    (∀ (e : HNode) resolve st f st',
      processMicrodataQuestion e resolve st = (some f, st') →
      f.id = sanitizeAnchor (rawElemId e)) := by
  refine ⟨?_, ?_, fun _ _ _ => rfl, ?_⟩
  · intro ids e r h
    unfold pass2Skips
    rw [h]
    exact List.elem_iff
  · intro ids e h
    unfold pass2Skips
    rw [h]
  · intro e resolve st f st' h
    unfold processMicrodataQuestion at h
    by_cases h1 : (processQuestion (microQuestionText e) st).1.isEmpty
    · rw [if_pos h1] at h
      simp at h
    · rw [if_neg h1] at h
      by_cases h2 : (microRawAnswer e).isEmpty
      · rw [if_pos h2] at h
        simp at h
      · rw [if_neg h2] at h
        injection h with hfst hsnd
        injection hfst with hrec
        rw [← hrec]

/-- C8 amended witness: an element whose raw id `q-1` already appears in the
produced-ids set is skipped by the standalone pass. -/
theorem microdata_pass2_skip_amended_witness :
    pass2Skips ["q-1".data] (elemL "div" [("id", "q-1")] []) = true :=
  (microdata_pass2_skip_amended.1 ["q-1".data] (elemL "div" [("id", "q-1")] [])
    "q-1".data rfl).mpr (by decide)

/-! ### Claim C2 — the three response tiers of the orchestrator -/

/-- The shape of the extraction response relevant to the outcome tiers
(src/index.js lines 338-399): the `success` flag, the `faqs` field when
present, and the `error` message when present. -/
structure ResponseEnvelope where
  success : Bool
  faqsField : Option (List FAQ)
  errorField : Option (List Char)
deriving DecidableEq

/-- The FAQ-markup test of `handleRequest` (src/index.js lines 363-365). -/
def hasFaqMarkup (html : List Char) : Bool :=
  subOf "schema.org/FAQPage".data html ||
  subOf "typeof=\"FAQPage\"".data html ||
  subOf "\"@type\":\"FAQPage\"".data html

/-- The outcome decision of `handleRequest` after dedup (src/index.js lines
338-399): records found → success envelope with the records; no records but
FAQ markup present in the raw HTML → `success: false` with an `error` and no
`faqs` field; otherwise → `success: false` with `faqs: []`, no `error`. -/
def buildExtractionResponse (allFaqs : List FAQ) (html : List Char) :
    ResponseEnvelope :=
  if 0 < allFaqs.length then ⟨true, some allFaqs, none⟩
  else if hasFaqMarkup html then
    ⟨false, none,
     some ("Page contains FAQ markup but extraction failed. " ++
       "The structure might be non-standard.").data⟩
  else ⟨false, some [], none⟩

/-- C2 counterexample: with zero records and no FAQ markup the response is
not a success envelope — its `success` flag is `false` (the claim calls this
tier "a success envelope with an empty faqs list"). -/
theorem noFaqs_not_success_envelope :
    hasFaqMarkup "<html><body>plain page</body></html>".data = false ∧
    (buildExtractionResponse [] "<html><body>plain page</body></html>".data).success = false ∧
    (buildExtractionResponse [] "<html><body>plain page</body></html>".data).faqsField = some [] := by
  refine ⟨by decide, by decide, by decide⟩

/-- C2 amended: with zero extracted records and no FAQ markup marker in the
raw HTML, the response is the soft no-FAQs outcome — `success: false` with an
empty `faqs` list and no `error` field — which is distinct from the
markup-detected tier (no `faqs` field, an `error` present) and from the
success envelope (which requires at least one record). -/
theorem noFaqs_soft_outcome (html : List Char)
    (h : hasFaqMarkup html = false) :
    buildExtractionResponse [] html = ⟨false, some [], none⟩ ∧
    (∀ html', hasFaqMarkup html' = true →
      (buildExtractionResponse [] html').faqsField = none ∧
      (buildExtractionResponse [] html').errorField ≠ none ∧
      (buildExtractionResponse [] html').success = false) ∧
    (∀ faqs html', (buildExtractionResponse faqs html').success = true →
      0 < faqs.length) := by
  refine ⟨?_, ?_, ?_⟩
  · unfold buildExtractionResponse
    rw [if_neg (by simp), h, if_neg Bool.false_ne_true]
  · intro html' h'
    unfold buildExtractionResponse
    rw [if_neg (by simp), h', if_pos rfl]
    refine ⟨rfl, ?_, rfl⟩
    intro hc
    cases hc
  · intro faqs html' hsucc
    by_cases hlen : 0 < faqs.length
    · exact hlen
    · exfalso
      unfold buildExtractionResponse at hsucc
      rw [if_neg hlen] at hsucc
      by_cases hm : hasFaqMarkup html'
      · rw [if_pos hm] at hsucc
        cases hsucc
      · rw [if_neg hm] at hsucc
        cases hsucc

/-- C2 amended witness: a concrete plain page gets the soft no-FAQs
envelope. -/
theorem noFaqs_soft_outcome_witness :
    buildExtractionResponse [] "<html><body>plain page</body></html>".data =
      ⟨false, some [], none⟩ :=
  (noFaqs_soft_outcome "<html><body>plain page</body></html>".data (by decide)).1

end FaqWorker
